/-
Verification of the Obsidian Vault Indexer (vault_indexer.py) against its
natural-language specification.

The Python source is shallowly embedded below:
  * `MD5.md5hex`            — hashlib.md5(...).hexdigest() (RFC 1321, full
                              implementation over UTF-8 bytes, words as
                              `Nat` reduced mod 2^32);
  * `pyStem` / `pySuffix`   — pathlib.PurePath(...).stem / .suffix for plain
                              base names (the only inputs the walker feeds
                              them: names without path separators);
  * `detect_filename_pattern`, `redact_filename`, `get_file_type_category`
                            — the three per-file functions, with each Python
                              regex translated into an explicit decidable
                              predicate on the stem's character list
                              (`\d`, `\s` and `.lower()` are modelled at
                              ASCII width, the vault names in scope);
  * `scan_vault`            — os.walk over an explicit `DirTree`, with the
                              in-place `dirs[:]` pruning, the per-directory
                              record guard, and the running `Stats`
                              (defaultdicts as insertion-ordered assoc
                              lists, `datetime.now()` omitted: no claim
                              mentions the timestamp);
  * `selectShown`           — the per-folder example-selection loop of
                              generate_markdown (lines 354–368).
-/
import Mathlib

set_option linter.unusedVariables false
set_option maxRecDepth 1000000

/-! ## MD5 (hashlib.md5(name.encode()).hexdigest()) -/

namespace MD5

/-- Reduce to a 32-bit word. -/
def u32 (n : Nat) : Nat := n % 4294967296

/-- 32-bit left rotation. -/
def rotl (x n : Nat) : Nat := u32 (x <<< n) ||| (u32 x >>> (32 - n))

/-- 32-bit bitwise complement. -/
def compl32 (x : Nat) : Nat := 4294967295 - u32 x

/-- RFC 1321 sine-derived constant table. -/
def K : List Nat :=
  [0xd76aa478, 0xe8c7b756, 0x242070db, 0xc1bdceee,
   0xf57c0faf, 0x4787c62a, 0xa8304613, 0xfd469501,
   0x698098d8, 0x8b44f7af, 0xffff5bb1, 0x895cd7be,
   0x6b901122, 0xfd987193, 0xa679438e, 0x49b40821,
   0xf61e2562, 0xc040b340, 0x265e5a51, 0xe9b6c7aa,
   0xd62f105d, 0x02441453, 0xd8a1e681, 0xe7d3fbc8,
   0x21e1cde6, 0xc33707d6, 0xf4d50d87, 0x455a14ed,
   0xa9e3e905, 0xfcefa3f8, 0x676f02d9, 0x8d2a4c8a,
   0xfffa3942, 0x8771f681, 0x6d9d6122, 0xfde5380c,
   0xa4beea44, 0x4bdecfa9, 0xf6bb4b60, 0xbebfbc70,
   0x289b7ec6, 0xeaa127fa, 0xd4ef3085, 0x04881d05,
   0xd9d4d039, 0xe6db99e5, 0x1fa27cf8, 0xc4ac5665,
   0xf4292244, 0x432aff97, 0xab9423a7, 0xfc93a039,
   0x655b59c3, 0x8f0ccc92, 0xffeff47d, 0x85845dd1,
   0x6fa87e4f, 0xfe2ce6e0, 0xa3014314, 0x4e0811a1,
   0xf7537e82, 0xbd3af235, 0x2ad7d2bb, 0xeb86d391]

/-- RFC 1321 per-step shift amounts. -/
def S : List Nat :=
  [7, 12, 17, 22, 7, 12, 17, 22, 7, 12, 17, 22, 7, 12, 17, 22,
   5, 9, 14, 20, 5, 9, 14, 20, 5, 9, 14, 20, 5, 9, 14, 20,
   4, 11, 16, 23, 4, 11, 16, 23, 4, 11, 16, 23, 4, 11, 16, 23,
   6, 10, 15, 21, 6, 10, 15, 21, 6, 10, 15, 21, 6, 10, 15, 21]

/-- Round function F/G/H/I selected by the step index. -/
def mix (i b c d : Nat) : Nat :=
  if i < 16 then (b &&& c) ||| (compl32 b &&& d)
  else if i < 32 then (d &&& b) ||| (compl32 d &&& c)
  else if i < 48 then b ^^^ c ^^^ d
  else c ^^^ (b ||| compl32 d)

/-- Message-word index for the step index. -/
def gIdx (i : Nat) : Nat :=
  if i < 16 then i
  else if i < 32 then (5 * i + 1) % 16
  else if i < 48 then (3 * i + 5) % 16
  else (7 * i) % 16

/-- One of the 64 steps of a block. -/
def step (M : List Nat) (st : Nat × Nat × Nat × Nat) (i : Nat) :
    Nat × Nat × Nat × Nat :=
  let a := st.1
  let b := st.2.1
  let c := st.2.2.1
  let d := st.2.2.2
  let f := u32 (mix i b c d + a + K.getD i 0 + M.getD (gIdx i) 0)
  (d, u32 (b + rotl f (S.getD i 0)), b, c)

/-- Process one 16-word block. -/
def processBlock (st : Nat × Nat × Nat × Nat) (M : List Nat) :
    Nat × Nat × Nat × Nat :=
  let r := (List.range 64).foldl (step M) st
  (u32 (st.1 + r.1), u32 (st.2.1 + r.2.1),
   u32 (st.2.2.1 + r.2.2.1), u32 (st.2.2.2 + r.2.2.2))

/-- Little-endian byte decomposition, exactly `n` bytes (truncating). -/
def leBytes : Nat → Nat → List Nat
  | 0, _ => []
  | n + 1, v => v % 256 :: leBytes n (v / 256)

/-- RFC 1321 padding: 0x80, zeros to 56 mod 64, 64-bit little-endian bit length. -/
def pad (bytes : List Nat) : List Nat :=
  let zeros := (119 - bytes.length % 64) % 64
  bytes ++ [0x80] ++ List.replicate zeros 0 ++ leBytes 8 (bytes.length * 8)

/-- Group bytes into little-endian 32-bit words. -/
def toWords : List Nat → List Nat
  | b0 :: b1 :: b2 :: b3 :: rest =>
      (b0 + 256 * (b1 + 256 * (b2 + 256 * b3))) :: toWords rest
  | _ => []

/-- Split a byte list into 64-byte chunks (fueled; the input length is the fuel). -/
def chunksAux : Nat → List Nat → List (List Nat)
  | 0, _ => []
  | _, [] => []
  | fuel + 1, l => l.take 64 :: chunksAux fuel (l.drop 64)

def chunks (l : List Nat) : List (List Nat) := chunksAux l.length l

/-- MD5 digest of a byte list, as 16 bytes. -/
def md5Bytes (msg : List Nat) : List Nat :=
  let init : Nat × Nat × Nat × Nat :=
    (0x67452301, 0xefcdab89, 0x98badcfe, 0x10325476)
  let r := (chunks (pad msg)).foldl (fun st blk => processBlock st (toWords blk)) init
  leBytes 4 r.1 ++ leBytes 4 r.2.1 ++ leBytes 4 r.2.2.1 ++ leBytes 4 r.2.2.2

/-- Lower-case hex digit. -/
def hexChar (n : Nat) : Char :=
  if n < 10 then Char.ofNat (48 + n) else Char.ofNat (87 + n)

/-- Two-digit lower-case hex of a byte. -/
def byteHex (b : Nat) : List Char := [hexChar (b / 16), hexChar (b % 16)]

/-- UTF-8 encoding of one scalar value (str.encode()). -/
def utf8Char (c : Char) : List Nat :=
  let n := c.toNat
  if n < 0x80 then [n]
  else if n < 0x800 then
    [0xC0 ||| (n >>> 6), 0x80 ||| (n &&& 0x3F)]
  else if n < 0x10000 then
    [0xE0 ||| (n >>> 12), 0x80 ||| ((n >>> 6) &&& 0x3F), 0x80 ||| (n &&& 0x3F)]
  else
    [0xF0 ||| (n >>> 18), 0x80 ||| ((n >>> 12) &&& 0x3F),
     0x80 ||| ((n >>> 6) &&& 0x3F), 0x80 ||| (n &&& 0x3F)]

def utf8 (s : String) : List Nat := (s.toList.map utf8Char).flatten

/-- hashlib.md5(s.encode()).hexdigest(): 32 lower-case hex characters. -/
def md5hex (s : String) : String := ⟨((utf8 s |> md5Bytes).map byteHex).flatten⟩

end MD5

/-! ## pathlib stem / suffix (for plain base names) -/

/-- Index of the last '.' in a character list (str.rfind runs right to left). -/
def lastDotIdx : List Char → Option Nat
  | [] => none
  | c :: cs =>
    match lastDotIdx cs with
    | some i => some (i + 1)
    | none => if c = '.' then some 0 else none

/-- PurePath(filename).suffix: the part from the last dot, provided the dot is
neither the first nor the last character of the name; otherwise empty. -/
def pySuffix (s : String) : String :=
  let l := s.toList
  match lastDotIdx l with
  | some i => if 0 < i ∧ i < l.length - 1 then ⟨l.drop i⟩ else ""
  | none => ""

/-- PurePath(filename).stem: the name with `pySuffix` removed. -/
def pyStem (s : String) : String :=
  let l := s.toList
  match lastDotIdx l with
  | some i => if 0 < i ∧ i < l.length - 1 then ⟨l.take i⟩ else s
  | none => s

/-- `s.startswith('.')`: the first character is a dot.  (Stated on the
character list so that the kernel can evaluate it; `String.startsWith` is
extensionally the same test for the one-character needle.) -/
def startsDot (s : String) : Bool :=
  match s.toList with
  | [] => false
  | c :: _ => c = '.'

/-- `s.lower()` at ASCII width (`String.toLower`, restated on the character
list so the kernel can evaluate it). -/
def strLower (s : String) : String := ⟨s.toList.map Char.toLower⟩

/-! ## Character classes of the Python regexes (ASCII width) -/

/-- Python whitespace (`\s`, str.split()), at ASCII width. -/
def pyIsSpace (c : Char) : Bool :=
  c = ' ' || c = '\t' || c = '\n' || c = '\x0d' || c = '\x0b' || c = '\x0c'

/-- The separator class `[\s\-_\.]` of the numbered-prefix regexes. -/
def sepChar (c : Char) : Bool :=
  pyIsSpace c || c = '-' || c = '_' || c = '.'

/-- Hex digit class `[a-f0-9]` with re.IGNORECASE. -/
def hexDigit (c : Char) : Bool :=
  c.isDigit || ('a' ≤ c && c ≤ 'f') || ('A' ≤ c && c ≤ 'F')

/-! ## The classifier's regexes as decidable predicates on the stem -/

/-- `^\d{4}-\d{2}-\d{2}$` -/
def matchDaily1 : List Char → Bool
  | [a, b, c, d, '-', e, f, '-', g, h] =>
    a.isDigit && b.isDigit && c.isDigit && d.isDigit &&
    e.isDigit && f.isDigit && g.isDigit && h.isDigit
  | _ => false

/-- `^\d{4}\.\d{2}\.\d{2}$` -/
def matchDaily2 : List Char → Bool
  | [a, b, c, d, '.', e, f, '.', g, h] =>
    a.isDigit && b.isDigit && c.isDigit && d.isDigit &&
    e.isDigit && f.isDigit && g.isDigit && h.isDigit
  | _ => false

/-- `^\d{2}-\d{2}-\d{4}$` -/
def matchDaily3 : List Char → Bool
  | [a, b, '-', c, d, '-', e, f, g, h] =>
    a.isDigit && b.isDigit && c.isDigit && d.isDigit &&
    e.isDigit && f.isDigit && g.isDigit && h.isDigit
  | _ => false

/-- `^\d{4}-W\d{2}$` with re.IGNORECASE. -/
def matchWeekly : List Char → Bool
  | [a, b, c, d, '-', w, e, f] =>
    a.isDigit && b.isDigit && c.isDigit && d.isDigit &&
    (w = 'W' || w = 'w') && e.isDigit && f.isDigit
  | _ => false

/-- `^\d{n}$`: exactly `n` digits. -/
def allDigitsLen (n : Nat) (l : List Char) : Bool :=
  l.length = n && l.all Char.isDigit

/-- The capture group of `^(\d+[\s\-_\.]+)`: a maximal nonempty digit run
followed by a maximal nonempty separator run, `none` when the regex does not
match.  (Both runs are maximal because the two classes are disjoint and the
trailing `+` is greedy with nothing anchored after it.) -/
def numPrefGroup (l : List Char) : Option (List Char) :=
  let ds := l.takeWhile Char.isDigit
  let seps := (l.drop ds.length).takeWhile sepChar
  if ds.isEmpty || seps.isEmpty then none else some (ds ++ seps)

/-- `re.match(r'^\d+[\s\-_\.]+', name)` succeeds. -/
def matchNumbered (l : List Char) : Bool := (numPrefGroup l).isSome

/-- Consume exactly `n` hex digits. -/
def hexRun : Nat → List Char → Option (List Char)
  | 0, l => some l
  | n + 1, c :: cs => if hexDigit c then hexRun n cs else none
  | _ + 1, [] => none

/-- `^[a-f0-9]{8}-[a-f0-9]{4}-[a-f0-9]{4}-[a-f0-9]{4}-[a-f0-9]{12}$`
with re.IGNORECASE (also the claim's canonical UUID shape, whose
`[a-fA-F0-9]` class is the same set of characters). -/
def matchUuid (l : List Char) : Bool :=
  match hexRun 8 l with
  | some ('-' :: r1) =>
    match hexRun 4 r1 with
    | some ('-' :: r2) =>
      match hexRun 4 r2 with
      | some ('-' :: r3) =>
        match hexRun 4 r3 with
        | some ('-' :: r4) =>
          match hexRun 12 r4 with
          | some [] => true
          | _ => false
        | _ => false
      | _ => false
    | _ => false
  | _ => false

/-! ## detect_filename_pattern (vault_indexer.py lines 103–135) -/

def detect_filename_pattern (filename : String) : String × String :=
  let name := (pyStem filename).toList
  if matchDaily1 name then ("daily_note", "YYYY-MM-DD")
  else if matchDaily2 name then ("daily_note", "YYYY.MM.DD")
  else if matchDaily3 name then ("daily_note", "MM-DD-YYYY")
  else if matchWeekly name then ("weekly_note", "YYYY-Www")
  else if allDigitsLen 14 name then ("zettelkasten", "YYYYMMDDHHmmss")
  else if allDigitsLen 12 name then ("timestamp", "YYYYMMDDHHmm")
  else if matchNumbered name then ("numbered_prefix", "NNN - [Title]")
  else if matchUuid name then ("uuid", "UUID")
  else ("standard", "[Title]")

/-! ## redact_filename (vault_indexer.py lines 138–171) -/

/-- `name.split()`: split on whitespace runs, no empty tokens.  The
accumulator holds the (reversed) token under construction. -/
def splitWsAux : List Char → List Char → List (List Char)
  | [], cur => if cur.isEmpty then [] else [cur.reverse]
  | c :: cs, cur =>
    if pyIsSpace c then
      if cur.isEmpty then splitWsAux cs [] else cur.reverse :: splitWsAux cs []
    else splitWsAux cs (c :: cur)

def splitWs (l : List Char) : List (List Char) := splitWsAux l []

/-- The whitespace-delimited tokens of a string (`s.split()`). -/
def pyTokens (s : String) : List (List Char) := splitWs s.toList

/-- `len(name.split())` -/
def wordCount (s : String) : Nat := (pyTokens s).length

/-- `hashlib.md5(name.encode()).hexdigest()[:6]` -/
def shortHash (name : String) : String := (MD5.md5hex name).take 6

/-- The fall-through tail of redact_filename (lines 168–171):
`f"[Note_{short_hash}] (~{word_count} words in title){ext}"`. -/
def standardRedact (name ext : String) : String :=
  "[Note_" ++ shortHash name ++ "] (~" ++ toString (wordCount name) ++
    " words in title)" ++ ext

def redact_filename (filename pattern_type : String) : String :=
  let ext := pySuffix filename
  let name := pyStem filename
  if pattern_type = "daily_note" then
    if name.toList.contains '-' then "2024-01-15" ++ ext else "2024.01.15" ++ ext
  else if pattern_type = "weekly_note" then "2024-W03" ++ ext
  else if pattern_type = "zettelkasten" then "20240115143022" ++ ext
  else if pattern_type = "timestamp" then "202401151430" ++ ext
  else if pattern_type = "numbered_prefix" then
    -- A failed prefix re-extraction falls through to the standard tail; the
    -- Python if-chain would still compare against 'uuid' first, but
    -- pattern_type = "numbered_prefix" ≠ "uuid" makes that test vacuous.
    match numPrefGroup name.toList with
    | some pre => String.mk pre ++ "[Redacted Title]" ++ ext
    | none => standardRedact name ext
  else if pattern_type = "uuid" then
    "xxxxxxxx-xxxx-xxxx-xxxx-xxxxxxxxxxxx" ++ ext
  else standardRedact name ext

/-! ## get_file_type_category (vault_indexer.py lines 174–192) -/

def categoriesTable : List (String × List String) :=
  [("notes", [".md", ".markdown", ".txt"]),
   ("images", [".png", ".jpg", ".jpeg", ".gif", ".svg", ".webp", ".bmp"]),
   ("documents", [".pdf", ".doc", ".docx", ".xls", ".xlsx", ".ppt", ".pptx"]),
   ("audio", [".mp3", ".wav", ".m4a", ".ogg", ".flac"]),
   ("video", [".mp4", ".mov", ".avi", ".mkv", ".webm"]),
   ("data", [".json", ".csv", ".yaml", ".yml", ".xml"]),
   ("code", [".py", ".js", ".ts", ".html", ".css", ".sh"]),
   ("canvas", [".canvas"])]

def get_file_type_category (filename : String) : String :=
  let ext := strLower (pySuffix filename)
  match categoriesTable.find? (fun p => p.2.contains ext) with
  | some p => p.1
  | none => "other"

/-! ## The vault data model and scan_vault (vault_indexer.py lines 195–256)

A vault is modelled as an explicit ordered tree: `files` and `subdirs` list
the directory entries in the order os.walk reports them.  Sibling names are
unique on a real filesystem and never contain the path separator; `depth` is
therefore the number of relative-path components, exactly
`len(rel_path.split(os.sep))` (0 for the root, whose rel_path is ''). -/

structure DirTree where
  name : String
  files : List String
  subdirs : List DirTree
deriving Repr

structure FileEntry where
  redacted_name : String
  pattern : String
  type : String
  extension : String
deriving Repr, DecidableEq

structure FolderInfo where
  file_count : Nat
  subfolder_count : Nat
  files : List FileEntry
  depth : Nat
deriving Repr, DecidableEq

/-- The stats block; the two defaultdicts are insertion-ordered association
lists, as Python dicts are. -/
structure Stats where
  total_folders : Nat
  total_files : Nat
  file_types : List (String × Nat)
  patterns_found : List (String × Nat)
  depth_max : Nat
deriving Repr, DecidableEq

/-- `structure` as returned by scan_vault ('scanned_at' is wall-clock input,
mentioned by no claim, and omitted). -/
structure VaultStructure where
  root : String
  folders : List (String × FolderInfo)
  stats : Stats
deriving Repr, DecidableEq

/-- The walker's mutable state: the folders dict and the stats. -/
structure ScanAcc where
  folders : List (String × FolderInfo)
  stats : Stats
deriving Repr, DecidableEq

def SKIP_PATTERNS : List String :=
  [".obsidian", ".trash", ".git", ".DS_Store", "node_modules"]

/-- `d in SKIP_PATTERNS or d.startswith('.')` — the exclusion test applied to
both directory and file names. -/
def excludedName (s : String) : Bool :=
  SKIP_PATTERNS.contains s || startsDot s

/-- The pruned `dirs[:]` list of a directory. -/
def validDirs (d : DirTree) : List DirTree :=
  d.subdirs.filter (fun s => !excludedName s.name)

/-- `valid_files` of a directory. -/
def validFiles (d : DirTree) : List String :=
  d.files.filter (fun f => !excludedName f)

/-- defaultdict(int) increment: bump the first binding of `k`, appending a
fresh binding at the end on first touch. -/
def bump (l : List (String × Nat)) (k : String) : List (String × Nat) :=
  match l with
  | [] => [(k, 1)]
  | (k', v) :: rest =>
    if k' = k then (k', v + 1) :: rest else (k', v) :: bump rest k

/-- The folders-dict key: '/' for the root, the relative path otherwise. -/
def keyOf (parts : List String) : String :=
  if parts.isEmpty then "/" else String.intercalate "/" parts

/-- The per-file dict appended to `folder_info['files']` (lines 236–246). -/
def mkFileEntry (filename : String) : FileEntry :=
  let pt := (detect_filename_pattern filename).1
  { redacted_name := redact_filename filename pt
    pattern := pt
    type := get_file_type_category filename
    extension := pySuffix filename }

/-- The stats increments of one file (lines 248–250). -/
def bumpFileStats (st : Stats) (filename : String) : Stats :=
  { st with
    file_types := bump st.file_types (get_file_type_category filename)
    patterns_found := bump st.patterns_found (detect_filename_pattern filename).1
    total_files := st.total_files + 1 }

/-- The `for filename in valid_files` loop: the produced entry list and the
final stats. -/
def processFiles (st : Stats) : List String → List FileEntry × Stats
  | [] => ([], st)
  | f :: fs =>
    let r := processFiles (bumpFileStats st f) fs
    (mkFileEntry f :: r.1, r.2)

mutual

/-- One os.walk visit of directory `d`, whose relative path from the vault
root is `parts`: update depth_max, record the folder when it has countable
files or surviving subdirectories, then descend into the non-excluded
subdirectories in order. -/
def walkDir (parts : List String) (acc : ScanAcc) (d : DirTree) : ScanAcc :=
  let dirs := validDirs d
  let depth := parts.length
  let stD := { acc.stats with depth_max := max acc.stats.depth_max depth }
  let vfs := validFiles d
  if vfs.isEmpty && dirs.isEmpty then
    walkDirs parts { acc with stats := stD } d.subdirs
  else
    let pr := processFiles stD vfs
    let fi : FolderInfo :=
      { file_count := vfs.length
        subfolder_count := dirs.length
        files := pr.1
        depth := depth }
    let st2 :=
      if parts.isEmpty then pr.2
      else { pr.2 with total_folders := pr.2.total_folders + 1 }
    walkDirs parts { folders := acc.folders ++ [(keyOf parts, fi)], stats := st2 } d.subdirs
termination_by sizeOf d
decreasing_by
all_goals cases d
all_goals simp

/-- Descend into the children, skipping the excluded ones (the in-place
`dirs[:]` filter happens before os.walk recurses, so an excluded child is
never visited). -/
def walkDirs (parts : List String) (acc : ScanAcc) (l : List DirTree) : ScanAcc :=
  match l with
  | [] => acc
  | c :: cs =>
    walkDirs parts
      (if excludedName c.name then acc else walkDir (parts ++ [c.name]) acc c) cs
termination_by sizeOf l

end

def initStats : Stats :=
  { total_folders := 0, total_files := 0, file_types := [],
    patterns_found := [], depth_max := 0 }

def scan_vault (vault : DirTree) : VaultStructure :=
  let acc := walkDir [] { folders := [], stats := initStats } vault
  { root := vault.name, folders := acc.folders, stats := acc.stats }

/-! ## The per-folder example selection of generate_markdown (lines 354–368) -/

/-- The loop state: remaining files, `shown`, `seen_patterns` (a set: only
membership is ever used) and the emitted rows in reverse order. -/
def selectLoop : List FileEntry → Nat → List String → List FileEntry →
    List FileEntry × Nat
  | [], shown, _, out => (out.reverse, shown)
  | f :: fs, shown, seen, out =>
    let emit := !seen.contains f.pattern || shown < 3
    let shown' := if emit then shown + 1 else shown
    let seen' := if emit then f.pattern :: seen else seen
    let out' := if emit then f :: out else out
    if 5 ≤ shown' then (out'.reverse, shown')
    else selectLoop fs shown' seen' out'

/-- The example rows a folder's detail section shows, and the final `shown`
counter; `remaining` in the report is `files.length - shown`. -/
def selectShown (files : List FileEntry) : List FileEntry × Nat :=
  selectLoop files 0 [] []

/-- `remaining = len(info['files']) - shown` (line 366). -/
def remainingCount (files : List FileEntry) : Nat :=
  files.length - (selectShown files).2

/-! ## Derived definitions used by the theorems -/

def sumFiles (l : List (String × FolderInfo)) : Nat :=
  (l.map (fun p => p.2.files.length)).sum

mutual

/-- Maximum visited depth below (and including) a directory, the directory
itself counting as 0; excluded children are never visited. -/
def treeDepthMax (d : DirTree) : Nat := treeDepthMaxList d.subdirs
termination_by sizeOf d
decreasing_by
all_goals cases d
all_goals simp

def treeDepthMaxList : List DirTree → Nat
  | [] => 0
  | c :: cs =>
    max (if excludedName c.name then 0 else 1 + treeDepthMax c) (treeDepthMaxList cs)
termination_by l => sizeOf l

end

/-- Absolute-depth version of `treeDepthMaxList` for children of a directory
at depth `p`. -/
def dlist (p : Nat) : List DirTree → Nat
  | [] => 0
  | c :: cs =>
    max (if excludedName c.name then 0 else p + 1 + treeDepthMax c) (dlist p cs)

mutual

/-- Delete every excluded child (and, recursively, every excluded descendant
of a kept child) from a tree.  The walker never descends into such children,
so scanning a vault is the same as scanning its pruned version. -/
def pruneExcluded (d : DirTree) : DirTree :=
  { name := d.name, files := d.files, subdirs := pruneList d.subdirs }
termination_by sizeOf d
decreasing_by
all_goals cases d
all_goals simp

def pruneList : List DirTree → List DirTree
  | [] => []
  | c :: cs =>
    if excludedName c.name then pruneList cs else pruneExcluded c :: pruneList cs
termination_by l => sizeOf l

end

/-! ## Concrete vaults and folders used as witnesses and counterexamples -/

def c4_git_vault : DirTree :=
  DirTree.mk "G" ["2024-01-15.md"]
    [DirTree.mk ".git" ["2024-01-16.md", "secret.md"]
      [DirTree.mk "objects" ["2024-01-17.md"] []]]

def c5_vault : DirTree :=
  DirTree.mk "V" ["2024-01-15.md"]
    [DirTree.mk "a" [] [DirTree.mk "b" [] []]]

def c6_witness_files : List FileEntry :=
  [FileEntry.mk "2024-01-15.md" "daily_note" "notes" ".md",
   FileEntry.mk "2024-W03.md" "weekly_note" "notes" ".md"]

def c6_cex_files : List FileEntry :=
  [FileEntry.mk "2024-01-15.md" "daily_note" "notes" ".md",
   FileEntry.mk "2024-W03.md" "weekly_note" "notes" ".md",
   FileEntry.mk "20240115143022.md" "zettelkasten" "notes" ".md",
   FileEntry.mk "202401151430.md" "timestamp" "notes" ".md",
   FileEntry.mk "001 - [Redacted Title].md" "numbered_prefix" "notes" ".md",
   FileEntry.mk "xxxxxxxx-xxxx-xxxx-xxxx-xxxxxxxxxxxx.md" "uuid" "notes" ".md"]

def c7_vault : DirTree := DirTree.mk "W7" ["2024-01-15.md"] []

def c8_vault : DirTree := DirTree.mk "W8" ["2024-01-16.md"] []

/-! ## Lemmas about the per-file loop -/

theorem processFiles_fst (st : Stats) (fs : List String) :
    (processFiles st fs).1 = fs.map mkFileEntry := by
  induction fs generalizing st with
  | nil => rfl
  | cons f fs ih => simp [processFiles, ih]

theorem processFiles_total_files (st : Stats) (fs : List String) :
    (processFiles st fs).2.total_files = st.total_files + fs.length := by
  induction fs generalizing st with
  | nil => simp [processFiles]
  | cons f fs ih => simp [processFiles, ih, bumpFileStats]; omega

theorem processFiles_depth_max (st : Stats) (fs : List String) :
    (processFiles st fs).2.depth_max = st.depth_max := by
  induction fs generalizing st with
  | nil => rfl
  | cons f fs ih => simp [processFiles, ih, bumpFileStats]

/-! ## The aggregation invariant: total_files is the sum of the folder file lists -/

theorem sumFiles_append (a b : List (String × FolderInfo)) :
    sumFiles (a ++ b) = sumFiles a + sumFiles b := by
  simp [sumFiles]

mutual

theorem walkDir_sum (parts : List String) (acc : ScanAcc) (d : DirTree)
    (h : acc.stats.total_files = sumFiles acc.folders) :
    (walkDir parts acc d).stats.total_files = sumFiles (walkDir parts acc d).folders := by
  simp only [walkDir]
  split
  · exact walkDirs_sum parts _ d.subdirs h
  · refine walkDirs_sum parts _ d.subdirs ?_
    have h2 := processFiles_total_files
      { acc.stats with depth_max := max acc.stats.depth_max parts.length } (validFiles d)
    split <;>
      simp only [sumFiles_append, processFiles_fst, h2] <;>
      simp [sumFiles, h]
termination_by sizeOf d
decreasing_by
all_goals cases d
all_goals simp

theorem walkDirs_sum (parts : List String) (acc : ScanAcc) (l : List DirTree)
    (h : acc.stats.total_files = sumFiles acc.folders) :
    (walkDirs parts acc l).stats.total_files = sumFiles (walkDirs parts acc l).folders := by
  match l with
  | [] => simpa [walkDirs] using h
  | c :: cs =>
    rw [walkDirs]
    refine walkDirs_sum parts _ cs ?_
    split
    · exact h
    · exact walkDir_sum (parts ++ [c.name]) acc c h
termination_by sizeOf l

end

theorem scan_sum (v : DirTree) :
    (scan_vault v).stats.total_files = sumFiles (scan_vault v).folders := by
  simp only [scan_vault]
  exact walkDir_sum [] _ v rfl

/-! ## Every recorded folder satisfies any predicate that holds of the record shape -/

mutual

theorem walkDir_pred (Q : String × FolderInfo → Prop)
    (hQ : ∀ (parts : List String) (d : DirTree),
      ((validFiles d).isEmpty && (validDirs d).isEmpty) = false →
      Q (keyOf parts,
         { file_count := (validFiles d).length
           subfolder_count := (validDirs d).length
           files := (validFiles d).map mkFileEntry
           depth := parts.length }))
    (parts : List String) (acc : ScanAcc) (d : DirTree)
    (hacc : ∀ p ∈ acc.folders, Q p) :
    ∀ p ∈ (walkDir parts acc d).folders, Q p := by
  simp only [walkDir]
  split
  · exact walkDirs_pred Q hQ parts _ d.subdirs hacc
  · next hc =>
    refine walkDirs_pred Q hQ parts _ d.subdirs ?_
    intro p hp
    simp only [List.mem_append, List.mem_singleton] at hp
    rcases hp with hp | hp
    · exact hacc p hp
    · subst hp
      have hrec := hQ parts d (by simpa using hc)
      simpa [processFiles_fst] using hrec
termination_by sizeOf d
decreasing_by
all_goals cases d
all_goals simp

theorem walkDirs_pred (Q : String × FolderInfo → Prop)
    (hQ : ∀ (parts : List String) (d : DirTree),
      ((validFiles d).isEmpty && (validDirs d).isEmpty) = false →
      Q (keyOf parts,
         { file_count := (validFiles d).length
           subfolder_count := (validDirs d).length
           files := (validFiles d).map mkFileEntry
           depth := parts.length }))
    (parts : List String) (acc : ScanAcc) (l : List DirTree)
    (hacc : ∀ p ∈ acc.folders, Q p) :
    ∀ p ∈ (walkDirs parts acc l).folders, Q p := by
  match l with
  | [] => simpa [walkDirs] using hacc
  | c :: cs =>
    rw [walkDirs]
    refine walkDirs_pred Q hQ parts _ cs ?_
    split
    · exact hacc
    · exact walkDir_pred Q hQ (parts ++ [c.name]) acc c hacc
termination_by sizeOf l

end

theorem scan_pred (Q : String × FolderInfo → Prop)
    (hQ : ∀ (parts : List String) (d : DirTree),
      ((validFiles d).isEmpty && (validDirs d).isEmpty) = false →
      Q (keyOf parts,
         { file_count := (validFiles d).length
           subfolder_count := (validDirs d).length
           files := (validFiles d).map mkFileEntry
           depth := parts.length }))
    (v : DirTree) :
    ∀ p ∈ (scan_vault v).folders, Q p := by
  simp only [scan_vault]
  exact walkDir_pred Q hQ [] _ v (by simp)

/-! ## depth_max is the depth of the deepest visited directory -/

theorem max_dlist (p : Nat) (l : List DirTree) :
    max p (dlist p l) = p + treeDepthMaxList l := by
  induction l with
  | nil => simp [dlist, treeDepthMaxList]
  | cons c cs ih =>
    simp only [dlist, treeDepthMaxList]
    split <;> omega

mutual

theorem walkDir_depth (parts : List String) (acc : ScanAcc) (d : DirTree) :
    (walkDir parts acc d).stats.depth_max
      = max acc.stats.depth_max (parts.length + treeDepthMax d) := by
  simp only [walkDir]
  rw [treeDepthMax]
  have hmd := max_dlist parts.length d.subdirs
  split
  · rw [walkDirs_depth parts _ d.subdirs]
    simp
    omega
  · rw [walkDirs_depth parts _ d.subdirs]
    have h2 := processFiles_depth_max
      { acc.stats with depth_max := max acc.stats.depth_max parts.length } (validFiles d)
    split <;> simp [h2] <;> omega
termination_by sizeOf d
decreasing_by
all_goals cases d
all_goals simp

theorem walkDirs_depth (parts : List String) (acc : ScanAcc) (l : List DirTree) :
    (walkDirs parts acc l).stats.depth_max
      = max acc.stats.depth_max (dlist parts.length l) := by
  match l with
  | [] => simp [walkDirs, dlist]
  | c :: cs =>
    rw [walkDirs]
    rw [walkDirs_depth parts _ cs]
    simp only [dlist]
    split
    · next hex =>
      simp [hex]
    · next hex =>
      rw [walkDir_depth (parts ++ [c.name]) acc c]
      simp only [List.length_append]
      simp [hex]
      omega
termination_by sizeOf l

end

theorem scan_depth (v : DirTree) :
    (scan_vault v).stats.depth_max = treeDepthMax v := by
  simp only [scan_vault]
  rw [walkDir_depth [] _ v]
  simp [initStats]

/-! ## Excluded subtrees contribute nothing: scanning is blind to them -/

theorem pruneExcluded_name (d : DirTree) : (pruneExcluded d).name = d.name := by
  rw [pruneExcluded]

theorem pruneList_filter (l : List DirTree) :
    (pruneList l).filter (fun s => !excludedName s.name) = pruneList l := by
  induction l with
  | nil => simp [pruneList]
  | cons c cs ih =>
    rw [pruneList]
    split
    · exact ih
    · next hex =>
      simp [List.filter_cons, pruneExcluded_name, hex, ih]

theorem validDirs_prune (d : DirTree) : validDirs (pruneExcluded d) = pruneList d.subdirs := by
  rw [pruneExcluded]
  simp only [validDirs]
  exact pruneList_filter d.subdirs

theorem validFiles_prune (d : DirTree) : validFiles (pruneExcluded d) = validFiles d := by
  rw [pruneExcluded]
  simp [validFiles]

theorem pruneList_length (l : List DirTree) :
    (pruneList l).length = (l.filter (fun s => !excludedName s.name)).length := by
  induction l with
  | nil => simp [pruneList]
  | cons c cs ih =>
    rw [pruneList]
    split <;> next hex => simp [List.filter_cons, hex, ih]

theorem isEmptyDec {α : Type} (l : List α) : l.isEmpty = decide (l.length = 0) := by
  cases l <;> rfl

mutual

theorem walkDir_prune (parts : List String) (acc : ScanAcc) (d : DirTree) :
    walkDir parts acc (pruneExcluded d) = walkDir parts acc d := by
  have hsub : (pruneExcluded d).subdirs = pruneList d.subdirs := by rw [pruneExcluded]
  have hvd := validDirs_prune d
  have hvf := validFiles_prune d
  have hlen : (pruneList d.subdirs).length = (validDirs d).length := by
    rw [pruneList_length]
    simp only [validDirs]
  have hemp : (pruneList d.subdirs).isEmpty = (validDirs d).isEmpty := by
    rw [isEmptyDec, isEmptyDec, hlen]
  simp only [walkDir, hsub, hvd, hvf, hemp, hlen]
  by_cases hc : ((validFiles d).isEmpty && (validDirs d).isEmpty) = true
  · simp only [hc, if_true]
    exact walkDirs_prune parts _ d.subdirs
  · simp only [hc, if_false]
    exact walkDirs_prune parts _ d.subdirs
termination_by sizeOf d
decreasing_by
all_goals cases d
all_goals simp

theorem walkDirs_prune (parts : List String) (acc : ScanAcc) (l : List DirTree) :
    walkDirs parts acc (pruneList l) = walkDirs parts acc l := by
  match l with
  | [] => rw [pruneList]
  | c :: cs =>
    rw [pruneList]
    split
    · next hex =>
      rw [walkDirs_prune parts acc cs]
      conv_rhs => rw [walkDirs]
      simp [hex]
    · next hex =>
      rw [walkDirs]
      conv_rhs => rw [walkDirs]
      simp only [pruneExcluded_name, hex, Bool.false_eq_true, if_false]
      rw [walkDir_prune (parts ++ [c.name]) acc c]
      exact walkDirs_prune parts _ cs
termination_by sizeOf l

end

theorem scan_prune (v : DirTree) :
    scan_vault (pruneExcluded v) = scan_vault v := by
  simp only [scan_vault, pruneExcluded_name]
  rw [walkDir_prune [] _ v]

/-! ## Infix reasoning for the no-leak property -/

theorem prefToInf {l l2 : List Char} (h : l <+: l2) : l <:+: l2 := by
  obtain ⟨u, hu⟩ := h
  exact ⟨[], u, by simpa using hu⟩

/-- A space-free prefix of `x ++ ' ' :: y` is a prefix of `x`. -/
theorem noSpacePref : ∀ (t x y : List Char), ' ' ∉ t → t <+: x ++ ' ' :: y → t <+: x := by
  intro t
  induction t with
  | nil => intro x y _ _; exact ⟨x, by simp⟩
  | cons a t' ih =>
    intro x y hns hp
    match x with
    | [] =>
      rw [List.nil_append, List.cons_prefix_cons] at hp
      exact absurd (hp.1 ▸ List.mem_cons_self a t') hns
    | b :: x' =>
      rw [List.cons_append, List.cons_prefix_cons] at hp
      have := ih x' y (fun hm => hns (List.mem_cons_of_mem a hm)) hp.2
      exact List.cons_prefix_cons.mpr ⟨hp.1, this⟩

/-- A space-free infix of `x ++ ' ' :: y` lies wholly in `x` or wholly in `y`. -/
theorem noSpaceInfixSplit :
    ∀ (x t y : List Char), ' ' ∉ t → t <:+: x ++ ' ' :: y → t <:+: x ∨ t <:+: y := by
  intro x
  induction x with
  | nil =>
    intro t y hns h
    rw [List.nil_append, List.infix_cons_iff] at h
    rcases h with hp | hi
    · match t with
      | [] => exact Or.inl ⟨[], [], rfl⟩
      | a :: t' =>
        rw [List.cons_prefix_cons] at hp
        exact absurd (hp.1 ▸ List.mem_cons_self a t') hns
    · exact Or.inr hi
  | cons b x' ih =>
    intro t y hns h
    rw [List.cons_append, List.infix_cons_iff] at h
    rcases h with hp | hi
    · match t with
      | [] => exact Or.inl ⟨[], b :: x', rfl⟩
      | a :: t' =>
        rw [List.cons_prefix_cons] at hp
        have := noSpacePref t' x' y (fun hm => hns (List.mem_cons_of_mem a hm)) hp.2
        exact Or.inl (prefToInf (List.cons_prefix_cons.mpr ⟨hp.1, this⟩))
    · rcases ih t y hns hi with h1 | h2
      · exact Or.inl (List.infix_cons h1)
      · exact Or.inr h2

/-- Tokens produced by the Python str.split() embedding contain no whitespace. -/
theorem splitWsAux_no_space :
    ∀ (l cur t : List Char), (∀ c ∈ cur, pyIsSpace c = false) →
      t ∈ splitWsAux l cur → ∀ c ∈ t, pyIsSpace c = false := by
  intro l
  induction l with
  | nil =>
    intro cur t hcur ht
    rw [splitWsAux] at ht
    split at ht
    · simp at ht
    · rw [List.mem_singleton] at ht
      subst ht
      intro c hc
      exact hcur c (List.mem_reverse.mp hc)
  | cons a l' ih =>
    intro cur t hcur ht
    rw [splitWsAux] at ht
    split at ht
    · split at ht
      · exact ih [] t (by simp) ht
      · rcases List.mem_cons.mp ht with h | h
        · subst h
          intro c hc
          exact hcur c (List.mem_reverse.mp hc)
        · exact ih [] t (by simp) h
    · next ha =>
      refine ih (a :: cur) t ?_ ht
      intro c hc
      rcases List.mem_cons.mp hc with h | h
      · subst h; exact Bool.of_not_eq_true ha
      · exact hcur c h

theorem token_no_space (s : String) (t : List Char) (ht : t ∈ pyTokens s) :
    ' ' ∉ t := by
  intro hmem
  have := splitWsAux_no_space s.toList [] t (by simp) ht ' ' hmem
  simp [pyIsSpace] at this

theorem redact_standard_eq (f : String) :
    redact_filename f "standard" = standardRedact (pyStem f) (pySuffix f) := rfl

/-- The redacted `standard` output split at its four spaces: the bracketed
hash placeholder, the `(~<count>` marker, the literals `words` and `in`, and
`title)` followed by the preserved extension. -/
theorem standardRedact_decomp (n e : String) :
    (standardRedact n e).toList =
      ("[Note_" ++ shortHash n ++ "]").toList ++ ' ' ::
        (("(~" ++ toString (wordCount n)).toList ++ ' ' ::
          ("words".toList ++ ' ' ::
            ("in".toList ++ ' ' :: ("title)" ++ e).toList))) := by
  have h1 : ("] (~" : String).data = [']', ' ', '(', '~'] := rfl
  have h2 : (" words in title)" : String).data =
      ' ' :: ('w' :: 'o' :: 'r' :: 'd' :: 's' :: ' ' ::
        ('i' :: 'n' :: ' ' :: ['t', 'i', 't', 'l', 'e', ')'])) := rfl
  have h3 : ("[Note_" : String).data = ['[', 'N', 'o', 't', 'e', '_'] := rfl
  have h4 : ("(~" : String).data = ['(', '~'] := rfl
  have h5 : ("words" : String).data = ['w', 'o', 'r', 'd', 's'] := rfl
  have h6 : ("in" : String).data = ['i', 'n'] := rfl
  have h7 : ("title)" : String).data = ['t', 'i', 't', 'l', 'e', ')'] := rfl
  simp [standardRedact, String.toList, String.data_append, h1, h2, h3, h4, h5, h6, h7]

/-! ## Length facts about the classifier's rules -/

theorem matchDaily1_len {l : List Char} (h : matchDaily1 l = true) : l.length = 10 := by
  unfold matchDaily1 at h
  split at h <;> simp_all

theorem matchDaily2_len {l : List Char} (h : matchDaily2 l = true) : l.length = 10 := by
  unfold matchDaily2 at h
  split at h <;> simp_all

theorem matchDaily3_len {l : List Char} (h : matchDaily3 l = true) : l.length = 10 := by
  unfold matchDaily3 at h
  split at h <;> simp_all

theorem matchWeekly_len {l : List Char} (h : matchWeekly l = true) : l.length = 8 := by
  unfold matchWeekly at h
  split at h <;> simp_all

theorem allDigitsLen_len {n : Nat} {l : List Char} (h : allDigitsLen n l = true) :
    l.length = n := by
  unfold allDigitsLen at h
  simp at h
  exact h.1

theorem hexRun_len : ∀ (n : Nat) (l r : List Char), hexRun n l = some r →
    l.length = n + r.length := by
  intro n
  induction n with
  | zero => intro l r h; simp [hexRun] at h; simp [h]
  | succ n ih =>
    intro l r h
    match l with
    | [] => simp [hexRun] at h
    | c :: cs =>
      rw [hexRun] at h
      split at h
      · have := ih cs r h
        simp [this]
        omega
      · simp at h

theorem matchUuid_len {l : List Char} (h : matchUuid l = true) : l.length = 36 := by
  unfold matchUuid at h
  split at h
  · next r1 heq1 =>
    split at h
    · next r2 heq2 =>
      split at h
      · next r3 heq3 =>
        split at h
        · next r4 heq4 =>
          split at h
          · next heq5 =>
            have l1 := hexRun_len _ _ _ heq1
            have l2 := hexRun_len _ _ _ heq2
            have l3 := hexRun_len _ _ _ heq3
            have l4 := hexRun_len _ _ _ heq4
            have l5 := hexRun_len _ _ _ heq5
            simp at l1 l2 l3 l4 l5
            omega
          · exact absurd h (by simp)
        · exact absurd h (by simp)
      · exact absurd h (by simp)
    · exact absurd h (by simp)
  · exact absurd h (by simp)

/-! ## Lemmas about the per-folder example-selection loop -/

theorem selectLoop_out_sub :
    ∀ (fs : List FileEntry) (shown : Nat) (seen : List String) (out : List FileEntry)
      (g : FileEntry), g ∈ out → g ∈ (selectLoop fs shown seen out).1 := by
  intro fs
  induction fs with
  | nil => intro shown seen out g hg; simp [selectLoop, hg]
  | cons f fs ih =>
    intro shown seen out g hg
    by_cases hemit : f.pattern ∉ seen ∨ shown < 3
    · by_cases h5 : 5 ≤ shown + 1
      · simp [selectLoop, hemit, h5, hg]
      · simp [selectLoop, hemit, h5]
        exact ih _ _ _ g (by simp [hg])
    · by_cases h5 : 5 ≤ shown
      · simp [selectLoop, hemit, h5, hg]
      · simp [selectLoop, hemit, h5]
        exact ih _ _ _ g hg

theorem selectLoop_len :
    ∀ (fs : List FileEntry) (shown : Nat) (seen : List String) (out : List FileEntry),
      (selectLoop fs shown seen out).1.length + shown
        = out.length + (selectLoop fs shown seen out).2 := by
  intro fs
  induction fs with
  | nil => intro shown seen out; simp [selectLoop]
  | cons f fs ih =>
    intro shown seen out
    by_cases hemit : f.pattern ∉ seen ∨ shown < 3
    · by_cases h5 : 5 ≤ shown + 1
      · simp [selectLoop, hemit, h5]
        omega
      · simp [selectLoop, hemit, h5]
        have := ih (shown + 1) (f.pattern :: seen) (f :: out)
        simp at this
        omega
    · by_cases h5 : 5 ≤ shown
      · simp [selectLoop, hemit, h5]
      · simp [selectLoop, hemit, h5]
        have := ih shown seen out
        omega

theorem selectLoop_le5 :
    ∀ (fs : List FileEntry) (shown : Nat) (seen : List String) (out : List FileEntry),
      shown < 5 → (selectLoop fs shown seen out).2 ≤ 5 := by
  intro fs
  induction fs with
  | nil => intro shown seen out h; simp [selectLoop]; omega
  | cons f fs ih =>
    intro shown seen out h
    by_cases hemit : f.pattern ∉ seen ∨ shown < 3
    · by_cases h5 : 5 ≤ shown + 1
      · simp [selectLoop, hemit, h5]
        omega
      · simp [selectLoop, hemit, h5]
        exact ih _ _ _ (by omega)
    · have h5 : ¬(5 ≤ shown) := by omega
      simp [selectLoop, hemit, h5]
      exact ih _ _ _ (by omega)

theorem selectLoop_sublist :
    ∀ (fs : List FileEntry) (shown : Nat) (seen : List String) (out : List FileEntry),
      List.Sublist (selectLoop fs shown seen out).1 (out.reverse ++ fs) := by
  intro fs
  induction fs with
  | nil => intro shown seen out; simp [selectLoop]
  | cons f fs ih =>
    intro shown seen out
    by_cases hemit : f.pattern ∉ seen ∨ shown < 3
    · by_cases h5 : 5 ≤ shown + 1
      · simp [selectLoop, hemit, h5]
      · simp [selectLoop, hemit, h5]
        have := ih (shown + 1) (f.pattern :: seen) (f :: out)
        simpa using this
    · by_cases h5 : 5 ≤ shown
      · simp [selectLoop, hemit, h5]
      · simp [selectLoop, hemit, h5]
        exact (ih shown seen out).trans
          (List.Sublist.append_left (List.sublist_cons_self f fs) out.reverse)

theorem selectLoop_cover :
    ∀ (fs : List FileEntry) (shown : Nat) (seen : List String) (out : List FileEntry),
      (∀ q, q ∈ seen → ∃ g ∈ out, g.pattern = q) →
      (selectLoop fs shown seen out).2 < 5 →
      ∀ f ∈ fs, ∃ g ∈ (selectLoop fs shown seen out).1, g.pattern = f.pattern := by
  intro fs
  induction fs with
  | nil => intro shown seen out _ _ f hf; simp at hf
  | cons f0 fs ih =>
    intro shown seen out hinv hlt f hf
    by_cases hemit : f0.pattern ∉ seen ∨ shown < 3
    · by_cases h5 : 5 ≤ shown + 1
      · simp [selectLoop, hemit, h5] at hlt
        omega
      · simp only [selectLoop] at hlt ⊢
        simp [hemit, h5] at hlt ⊢
        rcases List.mem_cons.mp hf with h | h
        · subst h
          exact ⟨f, selectLoop_out_sub fs (shown + 1) (f.pattern :: seen) (f :: out) f
            (by simp), rfl⟩
        · refine ih (shown + 1) (f0.pattern :: seen) (f0 :: out) ?_ hlt f h
          intro q hq
          rcases List.mem_cons.mp hq with h' | h'
          · exact ⟨f0, by simp, h'.symm⟩
          · obtain ⟨g, hg, hgp⟩ := hinv q h'
            exact ⟨g, by simp [hg], hgp⟩
    · by_cases h5 : 5 ≤ shown
      · simp [selectLoop, hemit, h5] at hlt
        omega
      · simp only [selectLoop] at hlt ⊢
        simp [hemit, h5] at hlt ⊢
        rcases List.mem_cons.mp hf with h | h
        · subst h
          push_neg at hemit
          obtain ⟨g, hg, hgp⟩ := hinv f.pattern hemit.1
          exact ⟨g, selectLoop_out_sub fs shown seen out g hg, hgp⟩
        · exact ih shown seen out hinv hlt f h

/-! ## Redaction helper facts -/

theorem redact_ends_ext (f p : String) :
    ∃ b, redact_filename f p = b ++ pySuffix f := by
  simp only [redact_filename]
  split
  · split
    · exact ⟨"2024-01-15", rfl⟩
    · exact ⟨"2024.01.15", rfl⟩
  · split
    · exact ⟨"2024-W03", rfl⟩
    · split
      · exact ⟨"20240115143022", rfl⟩
      · split
        · exact ⟨"202401151430", rfl⟩
        · split
          · split
            · next pre hpre =>
              exact ⟨String.mk pre ++ "[Redacted Title]", rfl⟩
            · exact ⟨"[Note_" ++ shortHash (pyStem f) ++ "] (~" ++
                toString (wordCount (pyStem f)) ++ " words in title)", rfl⟩
          · split
            · exact ⟨"xxxxxxxx-xxxx-xxxx-xxxx-xxxxxxxxxxxx", rfl⟩
            · exact ⟨"[Note_" ++ shortHash (pyStem f) ++ "] (~" ++
                toString (wordCount (pyStem f)) ++ " words in title)", rfl⟩

theorem mkFileEntry_ext (f : String) : (mkFileEntry f).extension = pySuffix f := rfl

theorem redact_unknown_pattern (f p : String)
    (h : p ∉ (["daily_note", "weekly_note", "zettelkasten", "timestamp",
               "numbered_prefix", "uuid"] : List String)) :
    redact_filename f p = standardRedact (pyStem f) (pySuffix f) := by
  simp only [List.mem_cons, List.mem_singleton, not_or] at h
  obtain ⟨h1, h2, h3, h4, h5, h6⟩ := h
  simp [redact_filename, h1, h2, h3, h4, h5, h6]

theorem redact_numbered_fallback (f : String)
    (h : numPrefGroup (pyStem f).toList = none) :
    redact_filename f "numbered_prefix" = standardRedact (pyStem f) (pySuffix f) := by
  simp only [String.toList] at h
  simp [redact_filename, h]

/-! ## The claims -/

/-- C1 (counterexample): the no-leak property as stated fails.  For the
filename "my words.md" — classified `standard` — the whitespace token
"words" of the stem has length ≥ 4 and occurs in the redacted output,
because the fixed placeholder text `... words in title)` contains it. -/
theorem c1_standard_noleak_cex :
    detect_filename_pattern "my words.md" = ("standard", "[Title]") ∧
    "words".toList ∈ pyTokens (pyStem "my words.md") ∧
    4 ≤ "words".toList.length ∧
    "words".toList <:+: (redact_filename "my words.md" "standard").toList := by
  refine ⟨by decide, by decide, by decide, ?_⟩
  decide

/-- C1 (amended): for a filename classified `standard`, any whitespace-
delimited token of the stem of length ≥ 4 that occurs in the redacted
output lies wholly inside one of the output's fixed whitespace-free
segments — the `[Note_<hash>]` placeholder, the `(~<count>` marker, the
literal words `words` or `in`, or `title)` followed by the preserved
extension.  The title text itself never reaches the output: the only
possible collisions are with the placeholder's fixed vocabulary, the
6-hex-character digest, the decimal word count, or the extension. -/
theorem c1_standard_noleak (f : String) (t : List Char)
    (hstd : detect_filename_pattern f = ("standard", "[Title]"))
    (htok : t ∈ pyTokens (pyStem f))
    (hlen : 4 ≤ t.length)
    (hinf : t <:+: (redact_filename f "standard").toList) :
    t <:+: ("[Note_" ++ shortHash (pyStem f) ++ "]").toList ∨
    t <:+: ("(~" ++ toString (wordCount (pyStem f))).toList ∨
    t <:+: ("words" : String).toList ∨
    t <:+: ("in" : String).toList ∨
    t <:+: ("title)" ++ pySuffix f).toList := by
  have hns := token_no_space (pyStem f) t htok
  rw [redact_standard_eq, standardRedact_decomp] at hinf
  rcases noSpaceInfixSplit _ t _ hns hinf with h | h
  · exact Or.inl h
  rcases noSpaceInfixSplit _ t _ hns h with h2 | h2
  · exact Or.inr (Or.inl h2)
  rcases noSpaceInfixSplit _ t _ hns h2 with h3 | h3
  · exact Or.inr (Or.inr (Or.inl h3))
  rcases noSpaceInfixSplit _ t _ hns h3 with h4 | h4
  · exact Or.inr (Or.inr (Or.inr (Or.inl h4)))
  · exact Or.inr (Or.inr (Or.inr (Or.inr h4)))

/-- C1 (witness): the amended theorem applied to "my words.md" and its
stem token "words". -/
theorem c1_standard_noleak_witness :
    "words".toList <:+: ("[Note_" ++ shortHash (pyStem "my words.md") ++ "]").toList ∨
    "words".toList <:+: ("(~" ++ toString (wordCount (pyStem "my words.md"))).toList ∨
    "words".toList <:+: ("words" : String).toList ∨
    "words".toList <:+: ("in" : String).toList ∨
    "words".toList <:+: ("title)" ++ pySuffix "my words.md").toList :=
  c1_standard_noleak "my words.md" "words".toList
    (by decide) (by decide) (by decide) (by decide)

/-- C2 (counterexample): a canonical-UUID stem whose first group is all
digits matches the earlier `numbered_prefix` rule (`^\d+[\s\-_\.]+` is not
end-anchored), so classification returns `numbered_prefix`, not `uuid`,
and the numbered-prefix redaction keeps the digit run. -/
theorem c2_uuid_classify_cex :
    matchUuid (pyStem "12345678-1234-1234-1234-123456789012.md").toList = true ∧
    detect_filename_pattern "12345678-1234-1234-1234-123456789012.md" =
      ("numbered_prefix", "NNN - [Title]") ∧
    ("numbered_prefix" : String) ≠ "uuid" ∧
    redact_filename "12345678-1234-1234-1234-123456789012.md" "numbered_prefix" =
      "12345678-[Redacted Title].md" := by
  refine ⟨by decide, by decide, by decide, by decide⟩

/-- C2 (amended): for a filename whose stem matches the canonical UUID
shape AND is not captured by the earlier numbered-prefix rule (i.e. the
stem does not start with a digit run followed by a separator), the
classifier returns `uuid` and redaction with type `uuid` yields the fixed
x-mask followed by the original extension. -/
theorem c2_uuid_classify (f : String)
    (huuid : matchUuid (pyStem f).toList = true)
    (hnum : matchNumbered (pyStem f).toList = false) :
    detect_filename_pattern f = ("uuid", "UUID") ∧
    redact_filename f "uuid" = "xxxxxxxx-xxxx-xxxx-xxxx-xxxxxxxxxxxx" ++ pySuffix f := by
  constructor
  · have hl := matchUuid_len huuid
    have h1 : matchDaily1 (pyStem f).toList = false := by
      cases hh : matchDaily1 (pyStem f).toList
      · rfl
      · have := matchDaily1_len hh; omega
    have h2 : matchDaily2 (pyStem f).toList = false := by
      cases hh : matchDaily2 (pyStem f).toList
      · rfl
      · have := matchDaily2_len hh; omega
    have h3 : matchDaily3 (pyStem f).toList = false := by
      cases hh : matchDaily3 (pyStem f).toList
      · rfl
      · have := matchDaily3_len hh; omega
    have h4 : matchWeekly (pyStem f).toList = false := by
      cases hh : matchWeekly (pyStem f).toList
      · rfl
      · have := matchWeekly_len hh; omega
    have h5 : allDigitsLen 14 (pyStem f).toList = false := by
      cases hh : allDigitsLen 14 (pyStem f).toList
      · rfl
      · have := allDigitsLen_len hh; omega
    have h6 : allDigitsLen 12 (pyStem f).toList = false := by
      cases hh : allDigitsLen 12 (pyStem f).toList
      · rfl
      · have := allDigitsLen_len hh; omega
    simp only [String.toList] at h1 h2 h3 h4 h5 h6 hnum huuid
    simp [detect_filename_pattern, h1, h2, h3, h4, h5, h6, hnum, huuid]
  · rfl

/-- C2 (witness): the amended theorem applied to a UUID filename whose
first group starts with a letter. -/
theorem c2_uuid_classify_witness :
    detect_filename_pattern "abcdef12-3456-7890-abcd-ef1234567890.md" = ("uuid", "UUID") ∧
    redact_filename "abcdef12-3456-7890-abcd-ef1234567890.md" "uuid" =
      "xxxxxxxx-xxxx-xxxx-xxxx-xxxxxxxxxxxx" ++
        pySuffix "abcdef12-3456-7890-abcd-ef1234567890.md" :=
  c2_uuid_classify "abcdef12-3456-7890-abcd-ef1234567890.md" (by decide) (by decide)

/-- C3: after a scan, `Stats.total_files` equals the sum of `len(files)`
over all recorded FolderInfo values, and every FolderInfo's `file_count`
field equals the length of its `files` list. -/
theorem c3_total_files_consistency (v : DirTree) :
    (scan_vault v).stats.total_files = sumFiles (scan_vault v).folders ∧
    ((scan_vault v).folders.all
      (fun p => p.2.file_count == p.2.files.length)) = true := by
  refine ⟨scan_sum v, ?_⟩
  rw [List.all_eq_true]
  intro p hp
  rw [beq_iff_eq]
  refine scan_pred (fun p => p.2.file_count = p.2.files.length) ?_ v p hp
  intro parts d _
  simp

/-- C4: scanning a vault equals scanning the vault with every
skip-listed or dot-hidden subdirectory deleted before the walk — the
walker never descends into them, so their contents appear in no
FolderInfo and contribute nothing to any counter.  Concretely, a vault
whose `.git` subtree holds three files scans to a single root folder
with one file and zero counted folders. -/
theorem c4_skiplist_enforcement :
    (∀ t : DirTree, scan_vault (pruneExcluded t) = scan_vault t) ∧
    (scan_vault c4_git_vault).folders.map Prod.fst = ["/"] ∧
    (scan_vault c4_git_vault).stats.total_files = 1 ∧
    (scan_vault c4_git_vault).stats.total_folders = 0 := by
  refine ⟨scan_prune, ?_, ?_, ?_⟩
  all_goals simp only [scan_vault, walkDir, walkDirs, c4_git_vault]
  all_goals decide

/-- C5 (counterexample): depth_max is updated for every visited
directory, countable files or not.  In a vault with one root file and an
empty chain a/b, depth_max is 2 while every folder holding countable
files has depth 0. -/
theorem c5_depth_max_cex :
    (scan_vault c5_vault).stats.depth_max = 2 ∧
    (((scan_vault c5_vault).folders.filter (fun p => 0 < p.2.file_count)).map
        (fun p => p.2.depth)).foldr max 0 = 0 ∧
    (scan_vault c5_vault).stats.depth_max ≠
      (((scan_vault c5_vault).folders.filter (fun p => 0 < p.2.file_count)).map
        (fun p => p.2.depth)).foldr max 0 := by
  refine ⟨?_, ?_, ?_⟩
  all_goals simp only [scan_vault, walkDir, walkDirs, c5_vault]
  all_goals decide

/-- C5 (amended): `Stats.depth_max` equals the maximum depth over ALL
visited directories — the root and every directory not excluded by the
skip/hidden rule — whether or not they contain countable files
(`treeDepthMax` is exactly that maximum, root = 0). -/
theorem c5_depth_max_amended : ∀ v : DirTree,
    (scan_vault v).stats.depth_max = treeDepthMax v := scan_depth

/-- C6 (counterexample): the detail section does NOT show every distinct
pattern type: with six files of six distinct patterns the cap of 5 drops
the sixth pattern (`uuid` occurs in the folder but in no shown row). -/
theorem c6_folder_examples_cex :
    ((c6_cex_files.map (fun e => e.pattern)).contains "uuid") = true ∧
    (((selectShown c6_cex_files).1.map (fun e => e.pattern)).contains "uuid") = false ∧
    (selectShown c6_cex_files).2 = 5 := by
  refine ⟨by decide, by decide, by decide⟩

/-- C6 (amended): the per-folder detail section shows at most 5 example
rows, taken from the folder's files in encounter order (a sublist); every
distinct pattern type of the folder appears at least once PROVIDED the
5-example cap was not reached; and the reported remaining count plus the
number of shown rows equals the folder's file count. -/
theorem c6_folder_examples (files : List FileEntry) :
    (selectShown files).1.length = (selectShown files).2 ∧
    (selectShown files).2 ≤ 5 ∧
    List.Sublist (selectShown files).1 files ∧
    ((selectShown files).2 < 5 →
      ∀ f ∈ files, ∃ g ∈ (selectShown files).1, g.pattern = f.pattern) ∧
    remainingCount files + (selectShown files).2 = files.length := by
  have hlen := selectLoop_len files 0 [] []
  simp only [List.length_nil, Nat.add_zero, Nat.zero_add] at hlen
  have hle := selectLoop_le5 files 0 [] [] (by omega)
  have hsub := selectLoop_sublist files 0 [] []
  simp only [List.reverse_nil, List.nil_append] at hsub
  have hcov := selectLoop_cover files 0 [] [] (by simp)
  have hlenle := List.Sublist.length_le hsub
  simp only [selectShown, remainingCount]
  refine ⟨by omega, by omega, hsub, hcov, by omega⟩

/-- C6 (witness): the amended theorem applied to a two-file folder whose
cap is not reached, exhibiting the weekly_note pattern among the rows. -/
theorem c6_folder_examples_witness :
    ∃ g ∈ (selectShown c6_witness_files).1, g.pattern = "weekly_note" :=
  (c6_folder_examples c6_witness_files).2.2.2.1 (by decide)
    (FileEntry.mk "2024-W03.md" "weekly_note" "notes" ".md") (by decide)

/-- C7: every branch of redact_filename appends the verbatim
`Path(filename).suffix`; `FileEntry.extension` is that same suffix; and
every FileEntry recorded by a scan has a redacted name ending in its own
extension field. -/
theorem c7_extension_preserved :
    (∀ filename pattern_type : String,
      ∃ b, redact_filename filename pattern_type = b ++ pySuffix filename) ∧
    (∀ filename : String, (mkFileEntry filename).extension = pySuffix filename) ∧
    (∀ (v : DirTree) (k : String) (fi : FolderInfo) (e : FileEntry),
      (k, fi) ∈ (scan_vault v).folders → e ∈ fi.files →
      ∃ b, e.redacted_name = b ++ e.extension) := by
  refine ⟨redact_ends_ext, mkFileEntry_ext, ?_⟩
  intro v k fi e hk he
  refine scan_pred
    (fun p => ∀ e ∈ p.2.files, ∃ b, e.redacted_name = b ++ e.extension)
    ?_ v (k, fi) hk e he
  intro parts d _ e2 he2
  simp only [List.mem_map] at he2
  obtain ⟨f0, hf0, rfl⟩ := he2
  obtain ⟨b, hb⟩ := redact_ends_ext f0 (detect_filename_pattern f0).1
  exact ⟨b, by simp [mkFileEntry, hb]⟩

/-- C7 (witness): the scan-level part applied to a one-file vault. -/
theorem c7_extension_preserved_witness :
    ∃ b, (FileEntry.mk "2024-01-15.md" "daily_note" "notes" ".md").redacted_name
      = b ++ (FileEntry.mk "2024-01-15.md" "daily_note" "notes" ".md").extension :=
  c7_extension_preserved.2.2 c7_vault "/"
    (FolderInfo.mk 1 0 [FileEntry.mk "2024-01-15.md" "daily_note" "notes" ".md"] 0)
    (FileEntry.mk "2024-01-15.md" "daily_note" "notes" ".md")
    (by simp only [scan_vault, walkDir, walkDirs, c7_vault]; decide)
    (by decide)

/-- C8: a directory that has no countable files and no non-excluded
subdirectories is never recorded: every FolderInfo in the mapping has a
positive file count or a positive subfolder count (those counts being
exactly the numbers of countable files and of non-excluded
subdirectories of the recorded directory). -/
theorem c8_no_empty_folder_keys (v : DirTree) (k : String) (fi : FolderInfo)
    (h : (k, fi) ∈ (scan_vault v).folders) :
    0 < fi.file_count ∨ 0 < fi.subfolder_count := by
  refine scan_pred (fun p => 0 < p.2.file_count ∨ 0 < p.2.subfolder_count) ?_ v (k, fi) h
  intro parts d hc
  rw [isEmptyDec, isEmptyDec] at hc
  simp only [Bool.and_eq_false_iff, decide_eq_false_iff_not] at hc
  simp only []
  rcases hc with hc | hc
  · exact Or.inl (Nat.pos_of_ne_zero hc)
  · exact Or.inr (Nat.pos_of_ne_zero hc)

/-- C8 (witness): the theorem applied to the root folder record of a
one-file vault. -/
theorem c8_no_empty_folder_keys_witness :
    0 < (FolderInfo.mk 1 0 [FileEntry.mk "2024-01-15.md" "daily_note" "notes" ".md"] 0).file_count ∨
    0 < (FolderInfo.mk 1 0 [FileEntry.mk "2024-01-15.md" "daily_note" "notes" ".md"] 0).subfolder_count :=
  c8_no_empty_folder_keys c8_vault "/"
    (FolderInfo.mk 1 0 [FileEntry.mk "2024-01-15.md" "daily_note" "notes" ".md"] 0)
    (by simp only [scan_vault, walkDir, walkDirs, c8_vault]; decide)

/-- C9: redact_filename — including the hash-based `standard` path, whose
MD5 digest is implemented above as a pure function — is deterministic:
two invocations on the same (filename, pattern_type) pair are equal.  In
this embedding the whole function is pure, so determinism is
definitional. -/
theorem c9_redact_deterministic :
    ∀ (filename pattern_type : String),
      redact_filename filename pattern_type = redact_filename filename pattern_type :=
  fun _ _ => rfl

/-- C10: redact_filename is total: a pattern_type outside the seven
enumerated values takes the standard hash-placeholder path, and a
`numbered_prefix` call whose prefix re-extraction fails falls through to
the same standard path; in every case a string is returned. -/
theorem c10_redact_total (filename pattern_type : String) :
    (pattern_type ∉ (["daily_note", "weekly_note", "zettelkasten", "timestamp",
                      "numbered_prefix", "uuid"] : List String) →
      redact_filename filename pattern_type
        = standardRedact (pyStem filename) (pySuffix filename)) ∧
    (numPrefGroup (pyStem filename).toList = none →
      redact_filename filename "numbered_prefix"
        = standardRedact (pyStem filename) (pySuffix filename)) :=
  ⟨redact_unknown_pattern filename pattern_type, redact_numbered_fallback filename⟩

/-- C10 (witness): both fall-through clauses at concrete inputs: the
unrecognized pattern_type "garbage", and a numbered_prefix call on a stem
with no numeric prefix. -/
theorem c10_redact_total_witness :
    redact_filename "notes.md" "garbage"
      = standardRedact (pyStem "notes.md") (pySuffix "notes.md") ∧
    redact_filename "notes.md" "numbered_prefix"
      = standardRedact (pyStem "notes.md") (pySuffix "notes.md") :=
  ⟨(c10_redact_total "notes.md" "garbage").1 (by decide),
   (c10_redact_total "notes.md" "numbered_prefix").2 (by decide)⟩
